import Mathlib

/- Verification development for the bunker-stats numerical statistics engine.

   The engine operates on dense sequences of IEEE doubles in which NaN marks a
   missing observation.  The shallow embedding models a double-valued sequence
   as `List (Option ℚ)`: `none` is the NaN sentinel and `some q` a finite value,
   with exact rational arithmetic standing in for floating point (the spec states
   its exact-arithmetic laws modulo a 1e-9 floating tolerance).  Square roots,
   which are irrational in general, are abstracted as an explicit `sq : ℚ → ℚ`
   parameter of the few operations that need them; the properties verified
   below do not depend on the value of `sq`.

   The Rust extension module `bunker_stats_rs` that implements the engine is not
   part of this repository checkout; where a definition embeds it, the
   definition is modelled from the spec (and cross-checked against the pure
   Python reference implementations shipped in the repository's test scripts,
   which are embedded directly where they exist). -/

namespace BunkerStats

/-- A double value: `none` is NaN, `some q` a finite value. -/
abbrev F := Option ℚ

/-- Number of valid (non-NaN) entries of a sequence. -/
def vcount (l : List F) : ℕ := (l.filterMap id).length

/-- Sum of the valid entries of a sequence. -/
def vsum (l : List F) : ℚ := (l.filterMap id).sum

/-- Sum of squares of the valid entries of a sequence. -/
def vsum2 (l : List F) : ℚ := ((l.filterMap id).map (fun a => a * a)).sum

/-- Sliding-window accumulator state: valid count, running sum, running sum of
squares of the active window (spec section 4.3). -/
structure RollSt where
  cnt : ℕ
  s1 : ℚ
  s2 : ℚ
  deriving DecidableEq

/-- Add an incoming element to the window state; NaN entries are skipped. -/
def addV (st : RollSt) : F → RollSt
  | none => st
  | some a => ⟨st.cnt + 1, st.s1 + a, st.s2 + a * a⟩

/-- Remove the element leaving the window from the state; NaN entries are skipped. -/
def subV (st : RollSt) : F → RollSt
  | none => st
  | some a => ⟨st.cnt - 1, st.s1 - a, st.s2 - a * a⟩

/-- Direct (non-incremental) statistics of a window, used to specify the
sliding accumulator. -/
def stats (l : List F) : RollSt := ⟨vcount l, vsum l, vsum2 l⟩

/-- One pass of the sliding-window engine: consume the input while in lockstep
consuming the stream of elements that leave the window, emitting the state
after every position (spec section 4.3: add the incoming element, subtract the
element leaving the window, O(1) per step). -/
def slideGo : List F → List F → RollSt → List RollSt
  | [], _, _ => []
  | a :: rest, [], st =>
      let st2 := addV st a
      st2 :: slideGo rest [] st2
  | a :: rest, l :: lv, st =>
      let st2 := subV (addV st a) l
      st2 :: slideGo rest lv st2

/-- Modelled from the spec: the sliding-window core shared by the rolling
operations (spec sections 4.3 and 9: one sliding-window core; the element
leaving the window at position `i` is `x[i-w]`, modelled by offsetting the
input with `w` NaN sentinels). -/
def rollStates (x : List F) (w : ℕ) : List RollSt :=
  slideGo x (List.replicate w none ++ x) ⟨0, 0, 0⟩

/-- The causal backward-looking window ending at position `i`: elements
`x[i-w+1..i]`, truncated at the start of the sequence (the truncated form is
the `min_periods = 1` window of the NaN-aware operations). -/
def winAt (x : List F) (w i : ℕ) : List F := (x.take (i + 1)).drop (i + 1 - w)

/-- Modelled from the spec: `rolling_mean_nan_np` (engine function, Rust
extension not in the checkout).  NaN-aware rolling mean with
`min_periods = 1` semantics: output the mean of the valid elements of the
window, NaN only when the window holds no valid element (spec section 4.3). -/
def rolling_mean_nan_np (x : List F) (w : ℕ) : List F :=
  (rollStates x w).map (fun st => if st.cnt = 0 then none else some (st.s1 / st.cnt))

/-- Unbiased variance of a window state: NaN when fewer than 2 valid elements,
else `(sumSq - sum^2/cnt)/(cnt - 1)` (spec section 4.3). -/
def rollingVarSt (st : RollSt) : F :=
  if st.cnt < 2 then none else some ((st.s2 - st.s1 * st.s1 / st.cnt) / ((st.cnt : ℚ) - 1))

/-- Modelled from the spec: `rolling_std_nan_np` (engine function, Rust
extension not in the checkout).  Square root of the NaN-aware rolling variance;
the square root is abstracted as `sq`. -/
def rolling_std_nan_np (sq : ℚ → ℚ) (x : List F) (w : ℕ) : List F :=
  (rollStates x w).map (fun st => (rollingVarSt st).map sq)

/-- Modelled from the spec: `rolling_zscore_nan_np` (engine function, Rust
extension not in the checkout).  `(x[i] - rolling_mean[i]) / rolling_std[i]`,
NaN whenever any ingredient is NaN or the std is degenerate (spec sections 4.3
and 7). -/
def rolling_zscore_nan_np (sq : ℚ → ℚ) (x : List F) (w : ℕ) : List F :=
  List.zipWith
    (fun xi p =>
      match xi, p.1, p.2 with
      | some a, some m, some sd => if sd = 0 then none else some ((a - m) / sd)
      | _, _, _ => none)
    x ((rolling_mean_nan_np x w).zip (rolling_std_nan_np sq x w))

/-- Modelled from the spec: `rolling_mean_np` (engine function, Rust extension
not in the checkout).  Plain rolling mean: same-length output, NaN until the
window is fully populated, `sum/w` afterwards (spec section 4.3; the all-valid
input is the degenerate case of the masked sliding core, spec section 9). -/
def rolling_mean_np (x : List ℚ) (w : ℕ) : List F :=
  (rollStates (x.map some) w).map (fun st => if st.cnt = w then some (st.s1 / w) else none)

/-- Modelled from the spec: `rolling_var_np` (engine function, Rust extension
not in the checkout).  Plain rolling unbiased variance: same-length output,
NaN until the window is fully populated. -/
def rolling_var_np (x : List ℚ) (w : ℕ) : List F :=
  (rollStates (x.map some) w).map
    (fun st => if st.cnt = w then some ((st.s2 - st.s1 * st.s1 / w) / ((w : ℚ) - 1)) else none)

/-- Arithmetic mean of a rational list (0 on the empty list, never reached by
the callers below). -/
def meanL (l : List ℚ) : ℚ := l.sum / l.length

/-- The spec's static covariance formula over an explicit list of valid pairs:
`Σ(xᵢ-mean x)(yᵢ-mean y)/(n-1)` (spec section 4.4). -/
def covSpec (ps : List (ℚ × ℚ)) : ℚ :=
  ((ps.map (fun p => (p.1 - meanL (ps.map Prod.fst)) * (p.2 - meanL (ps.map Prod.snd)))).sum) /
    ((ps.length : ℚ) - 1)

/-- The spec's two-pass unbiased variance formula `Σ(xᵢ-mean)²/(n-1)`. -/
def varSpec (l : List ℚ) : ℚ :=
  ((l.map (fun a => (a - meanL l) ^ 2)).sum) / ((l.length : ℚ) - 1)

/-- Embedded from `py_cov` (benchmarks/test_advanced_ops.py): ddof=1 covariance
of two equal-length NaN-free sequences. -/
def py_cov (x y : List ℚ) : ℚ :=
  ((x.zip y).map (fun p => (p.1 - meanL x) * (p.2 - meanL y))).sum / ((x.length : ℚ) - 1)

/-- Embedded from `py_rolling_cov` (benchmarks/test_advanced_ops.py): rolling
covariance reference; note it returns one value per fully populated window
(length `n - w + 1`), not a same-length output, and `[]` when the window is
invalid. -/
def py_rolling_cov (x y : List ℚ) (w : ℕ) : List ℚ :=
  if w = 0 ∨ x.length < w then []
  else (List.range (x.length - w + 1)).map (fun i => py_cov ((x.drop i).take w) ((y.drop i).take w))

/-- Embedded from `py_corr` (benchmarks/test_advanced_ops.py): Pearson
correlation `cov/(std x · std y)`, the square root abstracted as `sq`. -/
def py_corr (sq : ℚ → ℚ) (x y : List ℚ) : ℚ :=
  py_cov x y / (sq (varSpec x) * sq (varSpec y))

/-- Embedded from `py_rolling_corr` (benchmarks/test_advanced_ops.py): rolling
correlation reference; same truncated shape as `py_rolling_cov`. -/
def py_rolling_corr (sq : ℚ → ℚ) (x y : List ℚ) (w : ℕ) : List ℚ :=
  if w = 0 ∨ x.length < w then []
  else
    (List.range (x.length - w + 1)).map
      (fun i => py_corr sq ((x.drop i).take w) ((y.drop i).take w))

/-- Modelled from the spec: one Welford insertion (spec section 4.1): bump the
count, update the mean by `(x - mean)/count`, update M2 by
`(x - old_mean) * (x - new_mean)`. -/
def welfordStep : ℕ × ℚ × ℚ → ℚ → ℕ × ℚ × ℚ
  | (n, m, m2), x =>
    let n2 := n + 1
    let d := x - m
    let m2n := m + d / n2
    (n2, m2n, m2 + d * (x - m2n))

/-- Modelled from the spec: `welford_np` (engine function, Rust extension not
in the checkout).  One-pass mean/variance: returns
(mean, sample variance, count) with variance `M2/(count-1)` when `count ≥ 2`,
NaN otherwise (spec section 4.1; return order per test_advanced_ops.py). -/
def welford_np (x : List ℚ) : ℚ × Option ℚ × ℕ :=
  let t := x.foldl welfordStep (0, 0, 0)
  (t.2.1, if 2 ≤ t.1 then some (t.2.2 / ((t.1 : ℚ) - 1)) else none, t.1)

/-- Accumulated sums of the pairwise-valid observations: count, Σx, Σy, Σxy,
Σx², Σy². -/
structure PairSt where
  n : ℕ
  sx : ℚ
  sy : ℚ
  sxy : ℚ
  sxx : ℚ
  syy : ℚ
  deriving DecidableEq

/-- Fold step over an index-aligned pair of values: the pair contributes only
when both members are valid (spec section 4.4). -/
def pairStep (st : PairSt) : F × F → PairSt
  | (some a, some b) =>
      ⟨st.n + 1, st.sx + a, st.sy + b, st.sxy + a * b, st.sxx + a * a, st.syy + b * b⟩
  | _ => st

/-- One-pass sums over the pairwise-valid entries of two sequences. -/
def pairStats (x y : List F) : PairSt := (x.zip y).foldl pairStep ⟨0, 0, 0, 0, 0, 0⟩

/-- The valid pairs of an index-aligned pair list: keep a pair only when both
members are valid (spec section 4.4). -/
def vpairs (ps : List (F × F)) : List (ℚ × ℚ) :=
  ps.filterMap (fun p =>
    match p with
    | (some a, some b) => some (a, b)
    | _ => none)

/-- The index-aligned pairs at which both sequences are valid (spec
section 4.4: restrict to indices where BOTH members of the pair are valid). -/
def validPairs (x y : List F) : List (ℚ × ℚ) := vpairs (x.zip y)

/-- One-pass NaN-aware covariance value from accumulated sums:
`(Σxy - ΣxΣy/n)/(n-1)`. -/
def covOf (st : PairSt) : ℚ := (st.sxy - st.sx * st.sy / st.n) / ((st.n : ℚ) - 1)

/-- One-pass variance of the x side of the accumulated sums. -/
def varxOf (st : PairSt) : ℚ := (st.sxx - st.sx * st.sx / st.n) / ((st.n : ℚ) - 1)

/-- One-pass variance of the y side of the accumulated sums. -/
def varyOf (st : PairSt) : ℚ := (st.syy - st.sy * st.sy / st.n) / ((st.n : ℚ) - 1)

/-- Modelled from the spec: `cov_nan_np` (engine function, Rust extension not
in the checkout).  NaN-aware ddof=1 covariance over the pairwise-valid
entries, NaN when fewer than 2 such pairs exist (spec sections 4.4 and 7),
computed in one pass from the accumulated sums. -/
def cov_nan_np (x y : List F) : Option ℚ :=
  if (pairStats x y).n < 2 then none else some (covOf (pairStats x y))

/-- Modelled from the spec: `corr_nan_np` (engine function, Rust extension not
in the checkout).  NaN-aware Pearson correlation `cov/(std x · std y)` over
the pairwise-valid entries: NaN when fewer than 2 valid pairs exist or either
variance is zero (spec sections 4.4 and 7).  The square root is abstracted as
`sq`. -/
def corr_nan_np (sq : ℚ → ℚ) (x y : List F) : Option ℚ :=
  if (pairStats x y).n < 2 then none
  else if varxOf (pairStats x y) = 0 ∨ varyOf (pairStats x y) = 0 then none
  else some (covOf (pairStats x y) /
    (sq (varxOf (pairStats x y)) * sq (varyOf (pairStats x y))))

/-- Embedded from `py_diff` (benchmarks/test_advanced_ops.py):
`out[i] = x[i] - x[i-p]` for `i ≥ p`, NaN before. -/
def diff_np (x : List ℚ) (p : ℕ) : List F :=
  List.replicate (min p x.length) none ++ (x.drop p).zipWith (fun a b => some (a - b)) x

/-- Embedded from `py_pct_change` (benchmarks/test_advanced_ops.py), which is
the repository's reference for the engine's `pct_change_np`:
`out[i] = x[i]/x[i-p] - 1` for `i ≥ p`, NaN before; a zero base value would
produce an infinity (or 0/0 a NaN) and is converted to NaN (spec section 4.5). -/
def pct_change_np (x : List ℚ) (p : ℕ) : List F :=
  List.replicate (min p x.length) none ++
    (x.drop p).zipWith (fun a b => if b = 0 then none else some (a / b - 1)) x

/-- Prefix sums with an explicit accumulator. -/
def cumsumFrom : ℚ → List ℚ → List ℚ
  | _, [] => []
  | acc, a :: t => (acc + a) :: cumsumFrom (acc + a) t

/-- Modelled from the spec: `cumsum_np` (engine function, Rust extension not in
the checkout; reference `np.cumsum` in test_advanced_ops.py): prefix sums. -/
def cumsum_np (x : List ℚ) : List ℚ := cumsumFrom 0 x

/-- Embedded from `py_ecdf` (benchmarks/test_advanced_ops.py), the repository's
reference for the engine's `ecdf_np`: values sorted ascending paired with
cumulative probabilities `(i+1)/n`. -/
def ecdf_np (x : List ℚ) : List ℚ × List ℚ :=
  (x.mergeSort, (List.range x.length).map (fun i : ℕ => ((i : ℚ) + 1) / (x.length : ℚ)))

/-- Embedded from `np.median` as used by `py_mad`/`py_robust_scale`
(benchmarks/test_advanced_ops.py): middle order statistic, averaging the two
middle elements for even length. -/
def median (x : List ℚ) : ℚ :=
  if x.length % 2 = 1 then x.mergeSort.getD (x.length / 2) 0
  else (x.mergeSort.getD (x.length / 2 - 1) 0 + x.mergeSort.getD (x.length / 2) 0) / 2

/-- Embedded from `py_mad` (benchmarks/test_advanced_ops.py): median of
absolute deviations from the median. -/
def mad (x : List ℚ) : ℚ := median (x.map (fun a => |a - median x|))

/-- The epsilon substituted for a zero MAD denominator in robust scaling
(1e-12 in the reference `py_robust_scale`). -/
def robustEps : ℚ := 1 / 1000000000000

/-- Embedded from `py_robust_scale` (benchmarks/test_advanced_ops.py), the
repository's reference for the engine's `robust_scale_np`:
`((x - median)/(MAD·scale_factor), median, MAD)`, substituting the epsilon
denominator when the MAD is exactly 0. -/
def robust_scale_np (x : List ℚ) (scale_factor : ℚ) : List ℚ × ℚ × ℚ :=
  (x.map (fun a =>
    (a - median x) / (if mad x ≠ 0 then mad x * scale_factor else robustEps)),
   median x, mad x)

/-- Embedded from `__all__` (bunker_stats/__init__.py, lines 21-83): the
facade's stable export list, verbatim and in order. -/
def bunker_stats_all : List String :=
  ["mean_np", "std_np", "var_np", "zscore_np", "percentile_np", "iqr_np", "mad_np",
   "mean_nan_np", "std_nan_np", "var_nan_np",
   "rolling_mean_np", "rolling_std_np", "rolling_zscore_np", "ewma_np",
   "rolling_mean_nan_np", "rolling_std_nan_np", "rolling_zscore_nan_np",
   "welford_np", "sign_mask_np", "demean_with_signs_np",
   "iqr_outliers_np", "zscore_outliers_np", "minmax_scale_np", "robust_scale_np",
   "winsorize_np", "quantile_bins_np",
   "diff_np", "pct_change_np", "cumsum_np", "cummean_np", "ecdf_np",
   "cov_np", "corr_np", "cov_matrix_np", "corr_matrix_np",
   "rolling_cov_np", "rolling_corr_np",
   "cov_nan_np", "corr_nan_np", "rolling_cov_nan_np", "rolling_corr_nan_np",
   "kde_gaussian_np"]

/-- Timing figures produced by `_timeit`
(benchmarks/bench_compare_backends_enhanced.py). -/
structure TimingResult where
  median_s : ℚ
  mean_s : ℚ
  cv : ℚ
  p50_s : ℚ
  p95_s : ℚ
  p99_s : ℚ
  deriving DecidableEq

/-- The record `_safe_call` returns for one backend: a status tag, the
exception repr on failure, and per-field timing entries where `none` models
the empty-string CSV cell. -/
structure CallRecord where
  status : String
  error : String
  median_s : Option ℚ
  mean_s : Option ℚ
  cv : Option ℚ
  p50_s : Option ℚ
  p95_s : Option ℚ
  p99_s : Option ℚ
  deriving DecidableEq

/-- Embedded from `_safe_call` (benchmarks/bench_compare_backends_enhanced.py,
lines 240-254): a raising timed callable is modelled as `Except` carrying the
exception's repr; on success the timing is spread into the record, on failure
the record carries status "error", the repr and empty timing fields. -/
def safe_call (r : Except String TimingResult) : CallRecord :=
  match r with
  | .ok t => ⟨"ok", "", some t.median_s, some t.mean_s, some t.cv, some t.p50_s,
      some t.p95_s, some t.p99_s⟩
  | .error e => ⟨"error", e, none, none, none, none, none, none⟩

/-- A benchmark case as iterated by the driver's main loop. -/
structure BenchCase where
  fn_name : String
  deriving DecidableEq

/-- Embedded from the driver's main loop (bench_compare_backends_enhanced.py,
lines 731-739): skip the cases named in the skip set, otherwise run the case
and append exactly one result row. -/
def bench_rows (cases : List BenchCase) (skip : List String) (run : BenchCase → CallRecord) :
    List CallRecord :=
  match cases with
  | [] => []
  | c :: rest =>
      if skip.contains c.fn_name then bench_rows rest skip run
      else run c :: bench_rows rest skip run

/-! Basic facts about window statistics and the sliding accumulator. -/

theorem addV_stats (l : List F) (a : F) : addV (stats l) a = stats (l ++ [a]) := by
  cases a with
  | none =>
      simp [addV, stats, vcount, vsum, vsum2, List.filterMap_append]
  | some v =>
      simp [addV, stats, vcount, vsum, vsum2, List.filterMap_append]

theorem subV_addV_cons (l : List F) (u a : F) :
    subV (addV (stats (u :: l)) a) u = addV (stats l) a := by
  cases u with
  | none =>
      cases a <;> simp [addV, subV, stats, vcount, vsum, vsum2, List.filterMap_cons]
  | some b =>
      cases a with
      | none =>
          simp only [addV, subV, stats, vcount, vsum, vsum2, List.filterMap_cons, id_eq,
            List.length_cons, List.map_cons, List.sum_cons, RollSt.mk.injEq]
          refine ⟨by omega, by ring, by ring⟩
      | some v =>
          simp only [addV, subV, stats, vcount, vsum, vsum2, List.filterMap_cons, id_eq,
            List.length_cons, List.map_cons, List.sum_cons, RollSt.mk.injEq]
          refine ⟨by omega, by ring, by ring⟩

theorem slideGo_spec (w : ℕ) (hw : 0 < w) (todo : List F) :
    ∀ done : List F,
      slideGo todo ((List.replicate w none ++ (done ++ todo)).drop done.length)
          (stats (done.drop (done.length - w)))
        = (List.range todo.length).map
            (fun j => stats (winAt (done ++ todo) w (done.length + j))) := by
  induction todo with
  | nil => intro done; simp [slideGo]
  | cons a rest ih =>
      intro done
      have hn : done.length <
          (List.replicate w none ++ (done ++ a :: rest)).length := by
        simp; omega
      rw [List.drop_eq_getElem_cons hn]
      simp only [slideGo]
      have hstep :
          subV (addV (stats (done.drop (done.length - w))) a)
              (List.replicate w none ++ (done ++ a :: rest))[done.length] =
            stats ((done ++ [a]).drop (done.length + 1 - w)) := by
        by_cases hnw : done.length < w
        · have hb1 : done.length < (List.replicate w (none : F)).length := by
            simp [hnw]
          have h1 : (List.replicate w none ++ (done ++ a :: rest))[done.length] =
              (List.replicate w (none : F))[done.length] :=
            List.getElem_append_left hb1
          rw [h1, List.getElem_replicate]
          have h2 : done.length - w = 0 := by omega
          have h3 : done.length + 1 - w = 0 := by omega
          simp [h2, h3, subV, addV_stats]
        · push_neg at hnw
          have hlt : done.length - w < done.length := by omega
          have hb2 : done.length - w < (done ++ a :: rest).length := by
            simp
            omega
          have h1 : (List.replicate w (none : F) ++ (done ++ a :: rest))[done.length] =
              (done ++ a :: rest)[done.length - w] := by
            have h0 := @List.getElem_append_right F (List.replicate w (none : F))
              (done ++ a :: rest) done.length (by simpa using hnw) hn
            simpa using h0
          have h2 : (done ++ a :: rest)[done.length - w] = done[done.length - w] :=
            List.getElem_append_left hlt
          rw [h1, h2, List.drop_eq_getElem_cons hlt, subV_addV_cons]
          have h3 : done.length + 1 - w ≤ done.length := by omega
          rw [List.drop_append_of_le_length h3, ← addV_stats]
          have h4 : done.length + 1 - w = done.length - w + 1 := by omega
          rw [h4]
      rw [hstep]
      have hlen : (done ++ [a]).length = done.length + 1 := by simp
      have hx : (done ++ [a]) ++ rest = done ++ a :: rest := by simp
      have ih2 := ih (done ++ [a])
      simp only [hlen, hx] at ih2
      rw [ih2]
      rw [List.length_cons, List.range_succ_eq_map, List.map_cons, List.map_map]
      have hhead : winAt (done ++ a :: rest) w (done.length + 0) =
          (done ++ [a]).drop (done.length + 1 - w) := by
        have ht : (done ++ a :: rest).take (done.length + 1) = done ++ [a] := by
          have h5 := @List.take_append F done (a :: rest) 1
          simpa using h5
        simp only [winAt, Nat.add_zero, ht]
      have hidx : ∀ j : ℕ, done.length + 1 + j = done.length + Nat.succ j := by
        intro j; omega
      simp only [Function.comp_def, hidx, hhead]

theorem rollStates_eq (x : List F) (w : ℕ) (hw : 0 < w) :
    rollStates x w = (List.range x.length).map (fun i => stats (winAt x w i)) := by
  have h := slideGo_spec w hw x []
  simpa [rollStates] using h

theorem rollStates_getElem (x : List F) (w : ℕ) (hw : 0 < w) (i : ℕ) (hi : i < x.length) :
    (rollStates x w)[i]? = some (stats (winAt x w i)) := by
  rw [rollStates_eq x w hw, List.getElem?_map, List.getElem?_range hi]
  rfl

theorem rollStates_length (x : List F) (w : ℕ) (hw : 0 < w) :
    (rollStates x w).length = x.length := by
  rw [rollStates_eq x w hw]; simp

theorem winAt_length (x : List F) (w i : ℕ) (hi : i < x.length) :
    (winAt x w i).length = min (i + 1) w := by
  simp only [winAt, List.length_drop, List.length_take]
  omega

theorem vcount_map_some (l : List ℚ) : vcount (l.map some) = l.length := by
  simp [vcount, List.filterMap_map]

theorem winAt_map_some (x : List ℚ) (w i : ℕ) :
    winAt (x.map some) w i = ((x.take (i + 1)).drop (i + 1 - w)).map some := by
  simp [winAt, List.map_take, List.map_drop]

/-! Rolling operations: lengths and per-index values. -/

theorem rolling_mean_nan_np_length (x : List F) (w : ℕ) (hw : 0 < w) :
    (rolling_mean_nan_np x w).length = x.length := by
  simp [rolling_mean_nan_np, rollStates_length x w hw]

theorem rolling_std_nan_np_length (sq : ℚ → ℚ) (x : List F) (w : ℕ) (hw : 0 < w) :
    (rolling_std_nan_np sq x w).length = x.length := by
  simp [rolling_std_nan_np, rollStates_length x w hw]

theorem rolling_mean_nan_np_getElem (x : List F) (w : ℕ) (hw : 0 < w)
    (i : ℕ) (hi : i < x.length) :
    (rolling_mean_nan_np x w)[i]? =
      some (if vcount (winAt x w i) = 0 then none
        else some (vsum (winAt x w i) / (vcount (winAt x w i) : ℚ))) := by
  simp only [rolling_mean_nan_np, List.getElem?_map, rollStates_getElem x w hw i hi,
    Option.map_some']
  rfl

theorem rolling_std_nan_np_getElem_of_lt (sq : ℚ → ℚ) (x : List F) (w : ℕ) (hw : 0 < w)
    (i : ℕ) (hi : i < x.length) (h2 : vcount (winAt x w i) < 2) :
    (rolling_std_nan_np sq x w)[i]? = some none := by
  simp only [rolling_std_nan_np, List.getElem?_map, rollStates_getElem x w hw i hi,
    Option.map_some']
  simp [rollingVarSt, stats, h2]

theorem rolling_zscore_nan_np_getElem_of_lt (sq : ℚ → ℚ) (x : List F) (w : ℕ) (hw : 0 < w)
    (i : ℕ) (hi : i < x.length) (h2 : vcount (winAt x w i) < 2) :
    (rolling_zscore_nan_np sq x w)[i]? = some none := by
  have hi2 : i < (rolling_mean_nan_np x w).length := by
    rw [rolling_mean_nan_np_length x w hw]; exact hi
  have hi3 : i < (rolling_std_nan_np sq x w).length := by
    rw [rolling_std_nan_np_length sq x w hw]; exact hi
  have hstd := rolling_std_nan_np_getElem_of_lt sq x w hw i hi h2
  have hstdv : (rolling_std_nan_np sq x w)[i] = none := by
    rw [List.getElem?_eq_getElem hi3] at hstd
    exact Option.some_inj.mp hstd
  simp only [rolling_zscore_nan_np, List.zip_eq_zipWith, List.getElem?_zipWith,
    List.getElem?_eq_getElem hi, List.getElem?_eq_getElem hi2, List.getElem?_eq_getElem hi3,
    hstdv]
  cases hxa : x[i] <;> cases hma : (rolling_mean_nan_np x w)[i] <;> rfl

theorem rolling_mean_np_length (x : List ℚ) (w : ℕ) (hw : 0 < w) :
    (rolling_mean_np x w).length = x.length := by
  simp [rolling_mean_np, rollStates_length (x.map some) w hw]

theorem rolling_var_np_length (x : List ℚ) (w : ℕ) (hw : 0 < w) :
    (rolling_var_np x w).length = x.length := by
  simp [rolling_var_np, rollStates_length (x.map some) w hw]

theorem vcount_winAt_partial (x : List ℚ) (w i : ℕ) (hi : i < x.length) (hiw : i + 1 < w) :
    vcount (winAt (x.map some) w i) = i + 1 := by
  rw [winAt_map_some, vcount_map_some]
  have h0 : i + 1 - w = 0 := by omega
  rw [h0, List.drop_zero, List.length_take]
  omega

theorem rolling_mean_np_getElem_nan (x : List ℚ) (w : ℕ) (hw : 0 < w) (hwn : w ≤ x.length)
    (i : ℕ) (hiw : i < w - 1) :
    (rolling_mean_np x w)[i]? = some none := by
  have hi : i < (x.map some).length := by simp; omega
  simp only [rolling_mean_np, List.getElem?_map, rollStates_getElem (x.map some) w hw i hi,
    Option.map_some']
  have hv : vcount (winAt (x.map some) w i) = i + 1 :=
    vcount_winAt_partial x w i (by omega) (by omega)
  simp [stats, hv, show ¬(i + 1 = w) by omega]

theorem rolling_var_np_getElem_nan (x : List ℚ) (w : ℕ) (hw : 0 < w) (hwn : w ≤ x.length)
    (i : ℕ) (hiw : i < w - 1) :
    (rolling_var_np x w)[i]? = some none := by
  have hi : i < (x.map some).length := by simp; omega
  simp only [rolling_var_np, List.getElem?_map, rollStates_getElem (x.map some) w hw i hi,
    Option.map_some']
  have hv : vcount (winAt (x.map some) w i) = i + 1 :=
    vcount_winAt_partial x w i (by omega) (by omega)
  simp [stats, hv, show ¬(i + 1 = w) by omega]

theorem py_rolling_cov_length (x y : List ℚ) (w : ℕ) (hw : 0 < w) (hwn : w ≤ x.length) :
    (py_rolling_cov x y w).length = x.length - w + 1 := by
  rw [py_rolling_cov, if_neg (by omega)]
  simp

theorem py_rolling_corr_length (sq : ℚ → ℚ) (x y : List ℚ) (w : ℕ) (hw : 0 < w)
    (hwn : w ≤ x.length) :
    (py_rolling_corr sq x y w).length = x.length - w + 1 := by
  rw [py_rolling_corr, if_neg (by omega)]
  simp

/-- C2 (amended): for 0 < w ≤ len(x), the single-sequence rolling operations
(modelled here by rolling_mean_np and rolling_var_np) return same-length
outputs with NaN — not zero and not an omitted position — at every position
i < w−1; but the pair operations rolling_cov_np / rolling_corr_np (embedded
via their in-repo references py_rolling_cov / py_rolling_corr, whose output
shape the repository's test asserts equal to the engine's) instead return one
value per fully populated window, i.e. length len(x)−w+1 with the first w−1
positions omitted. -/
theorem c2_rolling_shapes (sq : ℚ → ℚ) (x y : List ℚ) (w : ℕ)
    (hw : 0 < w) (hwn : w ≤ x.length) :
    (rolling_mean_np x w).length = x.length ∧
    (rolling_var_np x w).length = x.length ∧
    (∀ i, i < w - 1 →
      (rolling_mean_np x w)[i]? = some none ∧ (rolling_var_np x w)[i]? = some none) ∧
    (py_rolling_cov x y w).length = x.length - w + 1 ∧
    (py_rolling_corr sq x y w).length = x.length - w + 1 :=
  ⟨rolling_mean_np_length x w hw, rolling_var_np_length x w hw,
   fun i hiw => ⟨rolling_mean_np_getElem_nan x w hw hwn i hiw,
     rolling_var_np_getElem_nan x w hw hwn i hiw⟩,
   py_rolling_cov_length x y w hw hwn, py_rolling_corr_length sq x y w hw hwn⟩

/-- C2 (witness): the amended statement evaluated at x=[1,2,3], y=[2,4,6],
w=2: same-length NaN-prefixed single-sequence outputs, truncated pair
outputs. -/
theorem c2_rolling_shapes_witness :
    (rolling_mean_np [1, 2, 3] 2).length = 3 ∧
    (rolling_var_np [1, 2, 3] 2).length = 3 ∧
    (rolling_mean_np [1, 2, 3] 2)[0]? = some none ∧
    (py_rolling_cov [1, 2, 3] [2, 4, 6] 2).length = 2 := by
  have h := c2_rolling_shapes (fun q => q) [1, 2, 3] [2, 4, 6] 2 (by decide) (by decide)
  exact ⟨h.1, h.2.1, (h.2.2.1 0 (by decide)).1, h.2.2.2.1⟩

/-- C2 (counterexample): the claim as stated fails at x=[1,2,3], y=[2,4,6],
w=2 with 0 < w ≤ len(x): the rolling covariance reference py_rolling_cov —
whose shape the repository's test asserts equal to the engine's
rolling_cov_np — has length 2, not the input length 3. -/
theorem c2_rolling_shapes_cex :
    (0 < 2 ∧ 2 ≤ ([1, 2, 3] : List ℚ).length) ∧
    (py_rolling_cov [1, 2, 3] [2, 4, 6] 2).length ≠ ([1, 2, 3] : List ℚ).length := by
  decide

/-- C3: for every sequence x (possibly containing NaN) and window size w > 0,
rolling_mean_nan_np outputs at every position i the mean of the non-NaN
elements of the (min_periods = 1) window ending at i, emitting NaN exactly
where the window holds zero valid elements, while rolling_std_nan_np and
rolling_zscore_nan_np emit NaN at every position whose window holds fewer
than 2 valid elements. -/
theorem c3_nan_rolling_min_valid (sq : ℚ → ℚ) (x : List F) (w : ℕ) (hw : 0 < w)
    (i : ℕ) (hi : i < x.length) :
    ((rolling_mean_nan_np x w)[i]? =
      some (if vcount (winAt x w i) = 0 then none
        else some (vsum (winAt x w i) / (vcount (winAt x w i) : ℚ)))) ∧
    (vcount (winAt x w i) < 2 →
      (rolling_std_nan_np sq x w)[i]? = some none ∧
      (rolling_zscore_nan_np sq x w)[i]? = some none) :=
  ⟨rolling_mean_nan_np_getElem x w hw i hi,
   fun h2 => ⟨rolling_std_nan_np_getElem_of_lt sq x w hw i hi h2,
     rolling_zscore_nan_np_getElem_of_lt sq x w hw i hi h2⟩⟩

/-- C3 (witness): on x=[some 1, NaN] with w=2 at position 1 the window holds a
single valid element, so the NaN-aware mean is 1 while std and zscore are
NaN. -/
theorem c3_nan_rolling_min_valid_witness :
    (rolling_mean_nan_np [some 1, none] 2)[1]? = some (some 1) ∧
    (rolling_std_nan_np (fun q => q) [some 1, none] 2)[1]? = some none ∧
    (rolling_zscore_nan_np (fun q => q) [some 1, none] 2)[1]? = some none := by
  have h := c3_nan_rolling_min_valid (fun q => q) [some 1, none] 2 (by decide) 1 (by decide)
  refine ⟨?_, (h.2 (by decide)).1, (h.2 (by decide)).2⟩
  rw [h.1]
  norm_num [winAt, vcount, vsum, List.filterMap_cons]

/-! Welford one-pass statistics. -/

theorem sum_sq_sub_const (l : List ℚ) (c : ℚ) :
    (l.map (fun a => (a - c) ^ 2)).sum =
      (l.map (fun a => a ^ 2)).sum - 2 * c * l.sum + (l.length : ℚ) * c ^ 2 := by
  induction l with
  | nil => simp
  | cons a t ih =>
      simp only [List.map_cons, List.sum_cons, List.length_cons, ih]
      push_cast
      ring

theorem varSpec_two_pass (l : List ℚ) (hl : l ≠ []) :
    varSpec l =
      ((l.map (fun a => a ^ 2)).sum - l.sum ^ 2 / l.length) / ((l.length : ℚ) - 1) := by
  have hn0 : l.length ≠ 0 := fun h => hl (List.length_eq_zero.mp h)
  have hn : (l.length : ℚ) ≠ 0 := Nat.cast_ne_zero.mpr hn0
  rw [varSpec, sum_sq_sub_const, meanL]
  congr 1
  field_simp
  ring

theorem welfordStep_eq (n : ℕ) (s q a : ℚ) (hn : (n : ℚ) ≠ 0) :
    welfordStep (n, s / n, q - s ^ 2 / n) a =
      (n + 1, (s + a) / ((n : ℚ) + 1), (q + a ^ 2) - (s + a) ^ 2 / ((n : ℚ) + 1)) := by
  have hn1 : (n : ℚ) + 1 ≠ 0 := by positivity
  simp only [welfordStep, Prod.mk.injEq]
  push_cast
  refine ⟨trivial, ?_, ?_⟩
  · field_simp
    ring
  · field_simp
    ring

theorem welford_foldl (x : List ℚ) :
    x.foldl welfordStep (0, 0, 0) =
      (x.length, x.sum / x.length,
        (x.map (fun a => a ^ 2)).sum - x.sum ^ 2 / x.length) := by
  induction x using List.reverseRecOn with
  | nil => norm_num
  | append_singleton t a ih =>
      rw [List.foldl_append, ih]
      by_cases ht : t = []
      · subst ht
        norm_num [welfordStep]
      · have hn0 : t.length ≠ 0 := fun h => ht (List.length_eq_zero.mp h)
        have hn : (t.length : ℚ) ≠ 0 := Nat.cast_ne_zero.mpr hn0
        simp only [List.foldl_cons, List.foldl_nil]
        rw [welfordStep_eq t.length t.sum ((t.map (fun a => a ^ 2)).sum) a hn]
        simp only [List.sum_append, List.map_append, List.length_append,
          List.sum_cons, List.sum_nil, List.map_cons, List.map_nil, List.length_cons,
          List.length_nil, Prod.mk.injEq]
        push_cast
        norm_num

theorem welford_np_eq (x : List ℚ) :
    welford_np x =
      (x.sum / x.length,
       if 2 ≤ x.length then
         some (((x.map (fun a => a ^ 2)).sum - x.sum ^ 2 / x.length) / ((x.length : ℚ) - 1))
       else none,
       x.length) := by
  unfold welford_np
  rw [welford_foldl x]

/-- C4: welford_np returns (mean, sample variance, count) in one Welford pass
with count = len(x), mean the arithmetic mean, variance = M2/(count−1) equal to
the direct two-pass formula when count ≥ 2 (exactly, in exact arithmetic) and
NaN when count < 2. -/
theorem c4_welford_two_pass (x : List ℚ) :
    (welford_np x).2.2 = x.length ∧
    (welford_np x).1 = meanL x ∧
    (2 ≤ x.length → (welford_np x).2.1 = some (varSpec x)) ∧
    (x.length < 2 → (welford_np x).2.1 = none) := by
  rw [welford_np_eq x]
  refine ⟨rfl, rfl, ?_, ?_⟩
  · intro h2
    have hx : x ≠ [] := by
      intro h
      subst h
      simp at h2
    simp only [if_pos h2, varSpec_two_pass x hx]
  · intro h2
    simp only [if_neg (show ¬ 2 ≤ x.length by omega)]

/-- C4 (witness): the theorem evaluated at x = [1, 2, 3]: count 3, mean 2,
one-pass variance equal to the two-pass value 1. -/
theorem c4_welford_two_pass_witness :
    (welford_np [1, 2, 3]).2.2 = 3 ∧
    (welford_np [1, 2, 3]).1 = meanL [1, 2, 3] ∧
    (welford_np [1, 2, 3]).2.1 = some (varSpec [1, 2, 3]) := by
  have h := c4_welford_two_pass [1, 2, 3]
  exact ⟨h.1, h.2.1, h.2.2.1 (by decide)⟩

/-! Sequence transforms: diff, pct_change, cumsum. -/

theorem pct_change_np_length (x : List ℚ) (p : ℕ) :
    (pct_change_np x p).length = x.length := by
  simp [pct_change_np]
  omega

theorem pct_change_np_getElem_lt (x : List ℚ) (p i : ℕ) (hip : i < p) (hin : i < x.length) :
    (pct_change_np x p)[i]? = some none := by
  have h1 : i < min p x.length := by omega
  simp [pct_change_np, List.getElem?_append, List.length_replicate, h1,
    List.getElem?_replicate]

theorem pct_change_np_getElem_ge (x : List ℚ) (p i : ℕ) (hp2 : p ≤ i) (hin : i < x.length)
    (hbase : i - p < x.length) :
    (pct_change_np x p)[i]? =
      some (if x[i - p] = 0 then none else some (x[i] / x[i - p] - 1)) := by
  have hmin : min p x.length = p := by omega
  have hpi : p + (i - p) = i := by omega
  simp only [pct_change_np, List.getElem?_append, List.length_replicate, hmin,
    if_neg (show ¬ i < p by omega), List.getElem?_zipWith, List.getElem?_drop, hpi,
    List.getElem?_eq_getElem hin, List.getElem?_eq_getElem hbase]

/-- C6: for p ≥ 1, pct_change_np has same-length output with NaN at every
position i < p and x[i]/x[i−p] − 1 at every position i ≥ p, except that a zero
base value — which in floating point would produce an infinity (or NaN for
0/0) — yields NaN, never an infinity. -/
theorem c6_pct_change (x : List ℚ) (p : ℕ) (hp : 1 ≤ p) :
    (pct_change_np x p).length = x.length ∧
    (∀ i, i < p → i < x.length → (pct_change_np x p)[i]? = some none) ∧
    (∀ i (hin : i < x.length) (hbase : i - p < x.length), p ≤ i →
      (pct_change_np x p)[i]? =
        some (if x[i - p] = 0 then none else some (x[i] / x[i - p] - 1))) :=
  ⟨pct_change_np_length x p,
   fun i hip hin => pct_change_np_getElem_lt x p i hip hin,
   fun i hin hbase hp2 => pct_change_np_getElem_ge x p i hp2 hin hbase⟩

/-- C6 (witness): on x = [1, 2, 0, 8] with p = 1: NaN start, 2/1−1 = 1 at
position 1, and NaN (not an infinity) at position 3 where the base value is
0. -/
theorem c6_pct_change_witness :
    (pct_change_np [1, 2, 0, 8] 1).length = 4 ∧
    (pct_change_np [1, 2, 0, 8] 1)[0]? = some none ∧
    (pct_change_np [1, 2, 0, 8] 1)[1]? = some (some 1) ∧
    (pct_change_np [1, 2, 0, 8] 1)[3]? = some none := by
  have h := c6_pct_change [1, 2, 0, 8] 1 (by decide)
  refine ⟨h.1, h.2.1 0 (by decide) (by decide), ?_, ?_⟩
  · have h3 := h.2.2 1 (by decide) (by decide) (by decide)
    rw [h3]
    norm_num
  · have h4 := h.2.2 3 (by decide) (by decide) (by decide)
    rw [h4]
    norm_num

theorem diff_np_length (x : List ℚ) (p : ℕ) : (diff_np x p).length = x.length := by
  simp [diff_np]
  omega

theorem diff_np_getElem_ge (y : List ℚ) (p i : ℕ) (hp2 : p ≤ i) (hin : i < y.length)
    (hbase : i - p < y.length) :
    (diff_np y p)[i]? = some (some (y[i] - y[i - p])) := by
  have hmin : min p y.length = p := by omega
  have hpi : p + (i - p) = i := by omega
  simp only [diff_np, List.getElem?_append, List.length_replicate, hmin,
    if_neg (show ¬ i < p by omega), List.getElem?_zipWith, List.getElem?_drop, hpi,
    List.getElem?_eq_getElem hin, List.getElem?_eq_getElem hbase]

theorem cumsumFrom_zip_shift (t : List ℚ) : ∀ b : ℚ,
    List.zipWith (fun a c => (some (a - c) : F)) (cumsumFrom b t) (b :: cumsumFrom b t) =
      t.map some := by
  induction t with
  | nil => intro b; simp [cumsumFrom]
  | cons a t2 ih =>
      intro b
      simp only [cumsumFrom, List.zipWith_cons_cons, List.map_cons, ih (b + a),
        add_sub_cancel_left]

/-- C9: diff with periods 1 undoes the prefix sum: dropping the leading NaN,
diff_np(cumsum_np(x), 1) reproduces x[1:] exactly in exact arithmetic, the
position-0 output is NaN, and in general diff_np(y, p)[i] = y[i] − y[i−p] for
i ≥ p. -/
theorem c9_diff_cumsum_round_trip (x : List ℚ) :
    (diff_np (cumsum_np x) 1).drop 1 = (x.drop 1).map some ∧
    (x ≠ [] → (diff_np (cumsum_np x) 1)[0]? = some none) ∧
    (∀ (y : List ℚ) (p i : ℕ) (hin : i < y.length) (hbase : i - p < y.length), p ≤ i →
      (diff_np y p)[i]? = some (some (y[i] - y[i - p]))) := by
  refine ⟨?_, ?_, fun y p i hin hbase hp2 => diff_np_getElem_ge y p i hp2 hin hbase⟩
  · cases x with
    | nil => simp [cumsum_np, cumsumFrom, diff_np]
    | cons a t =>
        have hc : cumsum_np (a :: t) = (0 + a) :: cumsumFrom (0 + a) t := rfl
        rw [hc]
        simp only [diff_np, List.length_cons]
        have hmin : min 1 ((cumsumFrom (0 + a) t).length + 1) = 1 := by omega
        rw [hmin]
        have hrep : (List.replicate 1 (none : F)) = [none] := rfl
        rw [hrep]
        simp only [List.cons_append, List.nil_append, List.drop_succ_cons, List.drop_zero,
          List.drop_one, List.tail_cons]
        rw [cumsumFrom_zip_shift t (0 + a)]
  · intro hx
    have hpos : 0 < min 1 (cumsum_np x).length := by
      cases x with
      | nil => exact absurd rfl hx
      | cons a t =>
          have : cumsum_np (a :: t) = (0 + a) :: cumsumFrom (0 + a) t := rfl
          rw [this]
          simp only [List.length_cons]
          omega
    rw [diff_np, List.getElem?_append, List.length_replicate, if_pos hpos,
      List.getElem?_replicate, if_pos hpos]

/-! NaN-aware pairwise covariance and correlation. -/

theorem foldl_pairStep (ps : List (F × F)) : ∀ st : PairSt,
    ps.foldl pairStep st =
      ⟨st.n + (vpairs ps).length,
       st.sx + ((vpairs ps).map Prod.fst).sum,
       st.sy + ((vpairs ps).map Prod.snd).sum,
       st.sxy + ((vpairs ps).map (fun p => p.1 * p.2)).sum,
       st.sxx + ((vpairs ps).map (fun p => p.1 * p.1)).sum,
       st.syy + ((vpairs ps).map (fun p => p.2 * p.2)).sum⟩ := by
  induction ps with
  | nil => intro st; simp [vpairs]
  | cons p rest ih =>
      intro st
      match p with
      | (some a, some b) =>
          simp only [List.foldl_cons, pairStep, ih, vpairs, List.filterMap_cons,
            List.map_cons, List.sum_cons, List.length_cons, PairSt.mk.injEq]
          refine ⟨by omega, by ring, by ring, by ring, by ring, by ring⟩
      | (some a, none) =>
          simp only [List.foldl_cons, pairStep, ih, vpairs, List.filterMap_cons]
      | (none, b) =>
          simp only [List.foldl_cons, pairStep, ih, vpairs, List.filterMap_cons]

theorem pairStats_eq (x y : List F) :
    pairStats x y =
      ⟨(validPairs x y).length,
       ((validPairs x y).map Prod.fst).sum,
       ((validPairs x y).map Prod.snd).sum,
       ((validPairs x y).map (fun p => p.1 * p.2)).sum,
       ((validPairs x y).map (fun p => p.1 * p.1)).sum,
       ((validPairs x y).map (fun p => p.2 * p.2)).sum⟩ := by
  have h := foldl_pairStep (x.zip y) ⟨0, 0, 0, 0, 0, 0⟩
  simpa [pairStats, validPairs] using h

theorem pairStats_n (x y : List F) : (pairStats x y).n = (validPairs x y).length := by
  rw [pairStats_eq]

theorem pairStats_sx (x y : List F) :
    (pairStats x y).sx = ((validPairs x y).map Prod.fst).sum := by
  rw [pairStats_eq]

theorem pairStats_sy (x y : List F) :
    (pairStats x y).sy = ((validPairs x y).map Prod.snd).sum := by
  rw [pairStats_eq]

theorem pairStats_sxy (x y : List F) :
    (pairStats x y).sxy = ((validPairs x y).map (fun p => p.1 * p.2)).sum := by
  rw [pairStats_eq]

theorem pairStats_sxx (x y : List F) :
    (pairStats x y).sxx = ((validPairs x y).map (fun p => p.1 * p.1)).sum := by
  rw [pairStats_eq]

theorem pairStats_syy (x y : List F) :
    (pairStats x y).syy = ((validPairs x y).map (fun p => p.2 * p.2)).sum := by
  rw [pairStats_eq]

theorem sum_centered_prod (ps : List (ℚ × ℚ)) (c d : ℚ) :
    (ps.map (fun p => (p.1 - c) * (p.2 - d))).sum =
      (ps.map (fun p => p.1 * p.2)).sum - c * (ps.map Prod.snd).sum -
        d * (ps.map Prod.fst).sum + (ps.length : ℚ) * (c * d) := by
  induction ps with
  | nil => simp
  | cons p rest ih =>
      simp only [List.map_cons, List.sum_cons, List.length_cons, ih]
      push_cast
      ring

theorem covSpec_one_pass (ps : List (ℚ × ℚ)) (hps : ps ≠ []) :
    covSpec ps =
      ((ps.map (fun p => p.1 * p.2)).sum -
        (ps.map Prod.fst).sum * (ps.map Prod.snd).sum / ps.length) /
        ((ps.length : ℚ) - 1) := by
  have hn0 : ps.length ≠ 0 := fun h => hps (List.length_eq_zero.mp h)
  have hn : (ps.length : ℚ) ≠ 0 := Nat.cast_ne_zero.mpr hn0
  rw [covSpec, sum_centered_prod, meanL, meanL]
  simp only [List.length_map]
  congr 1
  field_simp
  ring

theorem varSpec_one_pass (l : List ℚ) (hl : l ≠ []) :
    varSpec l =
      ((l.map (fun a => a * a)).sum - l.sum * l.sum / l.length) / ((l.length : ℚ) - 1) := by
  rw [varSpec_two_pass l hl]
  have hmap : (l.map (fun a => a * a)).sum = (l.map (fun a => a ^ 2)).sum := by
    simp [pow_two]
  rw [hmap]
  congr 1
  ring

theorem varSpec_map_fst (vp : List (ℚ × ℚ)) (h : vp ≠ []) :
    varSpec (vp.map Prod.fst) =
      ((vp.map (fun p => p.1 * p.1)).sum -
        (vp.map Prod.fst).sum * (vp.map Prod.fst).sum / vp.length) /
        ((vp.length : ℚ) - 1) := by
  rw [varSpec_one_pass _ (by simpa using h)]
  simp only [List.map_map, List.length_map, Function.comp_def]

theorem varSpec_map_snd (vp : List (ℚ × ℚ)) (h : vp ≠ []) :
    varSpec (vp.map Prod.snd) =
      ((vp.map (fun p => p.2 * p.2)).sum -
        (vp.map Prod.snd).sum * (vp.map Prod.snd).sum / vp.length) /
        ((vp.length : ℚ) - 1) := by
  rw [varSpec_one_pass _ (by simpa using h)]
  simp only [List.map_map, List.length_map, Function.comp_def]

theorem validPairs_ne_nil_of_two (x y : List F) (h2 : 2 ≤ (validPairs x y).length) :
    validPairs x y ≠ [] := by
  intro h
  rw [h] at h2
  simp at h2

theorem cov_nan_np_of_ge (x y : List F) (h2 : 2 ≤ (validPairs x y).length) :
    cov_nan_np x y = some (covSpec (validPairs x y)) := by
  have hvp := validPairs_ne_nil_of_two x y h2
  simp only [cov_nan_np, covOf, pairStats_n, pairStats_sx, pairStats_sy, pairStats_sxy]
  rw [if_neg (show ¬ (validPairs x y).length < 2 by omega), covSpec_one_pass _ hvp]

theorem cov_nan_np_of_lt (x y : List F) (h2 : (validPairs x y).length < 2) :
    cov_nan_np x y = none := by
  simp only [cov_nan_np, pairStats_n]
  rw [if_pos h2]

theorem corr_nan_np_of_lt (sq : ℚ → ℚ) (x y : List F) (h2 : (validPairs x y).length < 2) :
    corr_nan_np sq x y = none := by
  simp only [corr_nan_np, pairStats_n]
  rw [if_pos h2]

theorem corr_nan_np_of_ge (sq : ℚ → ℚ) (x y : List F) (h2 : 2 ≤ (validPairs x y).length)
    (hvx : varSpec ((validPairs x y).map Prod.fst) ≠ 0)
    (hvy : varSpec ((validPairs x y).map Prod.snd) ≠ 0) :
    corr_nan_np sq x y =
      some (covSpec (validPairs x y) /
        (sq (varSpec ((validPairs x y).map Prod.fst)) *
         sq (varSpec ((validPairs x y).map Prod.snd)))) := by
  have hvp := validPairs_ne_nil_of_two x y h2
  simp only [corr_nan_np, covOf, varxOf, varyOf, pairStats_n, pairStats_sx, pairStats_sy,
    pairStats_sxy, pairStats_sxx, pairStats_syy]
  rw [← varSpec_map_fst _ hvp, ← varSpec_map_snd _ hvp,
    if_neg (show ¬ (validPairs x y).length < 2 by omega),
    if_neg (not_or.mpr ⟨hvx, hvy⟩), covSpec_one_pass _ hvp]

/-- C5: cov_nan_np and corr_nan_np equal the ddof=1 covariance and the Pearson
correlation (cov over the product of the standard deviations, the square root
abstracted as sq) computed over exactly the pairwise-valid indices; with fewer
than 2 pairwise-valid indices the result is NaN, never an error; and on
x=[1,NaN,3,4], y=[2,2,NaN,5] exactly the index pairs (1,2) and (4,5) — indices
0 and 3 — contribute. -/
theorem c5_cov_corr_nan (sq : ℚ → ℚ) (x y : List F) :
    (2 ≤ (validPairs x y).length →
      cov_nan_np x y = some (covSpec (validPairs x y))) ∧
    ((validPairs x y).length < 2 →
      cov_nan_np x y = none ∧ corr_nan_np sq x y = none) ∧
    (2 ≤ (validPairs x y).length →
      varSpec ((validPairs x y).map Prod.fst) ≠ 0 →
      varSpec ((validPairs x y).map Prod.snd) ≠ 0 →
      corr_nan_np sq x y =
        some (covSpec (validPairs x y) /
          (sq (varSpec ((validPairs x y).map Prod.fst)) *
           sq (varSpec ((validPairs x y).map Prod.snd))))) ∧
    validPairs [some 1, none, some 3, some 4] [some 2, some 2, none, some 5] =
      [(1, 2), (4, 5)] :=
  ⟨fun h2 => cov_nan_np_of_ge x y h2,
   fun h2 => ⟨cov_nan_np_of_lt x y h2, corr_nan_np_of_lt sq x y h2⟩,
   fun h2 hvx hvy => corr_nan_np_of_ge sq x y h2 hvx hvy,
   by decide⟩

/-- C5 (witness): on the spec's example the covariance over the two valid
pairs is 9/2, an all-but-one-pair input yields NaN for both statistics, and
the correlation equals the Pearson value of the two valid pairs. -/
theorem c5_cov_corr_nan_witness :
    cov_nan_np [some 1, none, some 3, some 4] [some 2, some 2, none, some 5] =
      some (covSpec (validPairs [some 1, none, some 3, some 4]
        [some 2, some 2, none, some 5])) ∧
    cov_nan_np [some 1] [some 2] = none ∧
    corr_nan_np (fun q => q) [some 1] [some 2] = none ∧
    corr_nan_np (fun q => q) [some 1, none, some 3, some 4]
        [some 2, some 2, none, some 5] =
      some (covSpec (validPairs [some 1, none, some 3, some 4]
          [some 2, some 2, none, some 5]) /
        (varSpec ((validPairs [some 1, none, some 3, some 4]
            [some 2, some 2, none, some 5]).map Prod.fst) *
         varSpec ((validPairs [some 1, none, some 3, some 4]
            [some 2, some 2, none, some 5]).map Prod.snd))) := by
  have h := c5_cov_corr_nan (fun q => q) [some 1, none, some 3, some 4]
    [some 2, some 2, none, some 5]
  have h1 := c5_cov_corr_nan (fun q => q) [some 1] [some 2]
  have hvar : varSpec ((validPairs [some 1, none, some 3, some 4]
      [some 2, some 2, none, some 5]).map Prod.fst) ≠ 0 ∧
      varSpec ((validPairs [some 1, none, some 3, some 4]
      [some 2, some 2, none, some 5]).map Prod.snd) ≠ 0 := by
    rw [h.2.2.2]
    norm_num [varSpec, meanL]
  exact ⟨h.1 (by decide), (h1.2.1 (by decide)).1, (h1.2.1 (by decide)).2,
    h.2.2.1 (by decide) hvar.1 hvar.2⟩

/-- C9 (witness): the round-trip evaluated at x = [3, 5, 7]: cumsum is
[3, 8, 15], its diff reproduces [5, 7] after the leading NaN. -/
theorem c9_diff_cumsum_round_trip_witness :
    (diff_np (cumsum_np [3, 5, 7]) 1).drop 1 = [some 5, some 7] ∧
    (diff_np (cumsum_np [3, 5, 7]) 1)[0]? = some none := by
  have h := c9_diff_cumsum_round_trip [3, 5, 7]
  exact ⟨h.1, h.2.1 (by decide)⟩

/-! Empirical CDF. -/

/-- C7: ecdf_np returns the values of x as a sorted-ascending permutation of x
paired with cumulative probabilities (i+1)/n for 0-based i (1-indexed rank
over n); the probability sequence is monotonically non-decreasing and its last
element equals 1 exactly. -/
theorem c7_ecdf (x : List ℚ) (hx : x ≠ []) :
    (ecdf_np x).1.Perm x ∧
    (ecdf_np x).1.Sorted (· ≤ ·) ∧
    (ecdf_np x).1.length = x.length ∧
    (ecdf_np x).2.length = x.length ∧
    (∀ i, i < x.length →
      (ecdf_np x).2[i]? = some (((i : ℚ) + 1) / (x.length : ℚ))) ∧
    (ecdf_np x).2.Sorted (· ≤ ·) ∧
    (ecdf_np x).2.getLast? = some 1 := by
  have hn0 : x.length ≠ 0 := fun h => hx (List.length_eq_zero.mp h)
  have hn1 : 1 ≤ x.length := Nat.pos_of_ne_zero hn0
  have hnq : (0 : ℚ) < (x.length : ℚ) := by exact_mod_cast Nat.pos_of_ne_zero hn0
  refine ⟨List.mergeSort_perm x _, List.sorted_mergeSort' x,
    by simp [ecdf_np, List.length_mergeSort], by simp [ecdf_np], ?_, ?_, ?_⟩
  · intro i hi
    simp [ecdf_np, List.getElem?_map, List.getElem?_range hi]
  · simp only [ecdf_np]
    refine List.Pairwise.map _ ?_ (List.pairwise_lt_range x.length)
    intro a b hab
    have hc : (a : ℚ) ≤ (b : ℚ) := by exact_mod_cast hab.le
    have h1 : (a : ℚ) + 1 ≤ (b : ℚ) + 1 := by linarith
    exact div_le_div_of_nonneg_right h1 hnq.le
  · simp only [ecdf_np]
    rw [List.getLast?_eq_getElem?]
    simp only [List.length_map, List.length_range]
    rw [List.getElem?_map, List.getElem?_range (by omega), Option.map_some']
    have hcast : ((x.length - 1 : ℕ) : ℚ) = (x.length : ℚ) - 1 := by
      push_cast [Nat.cast_sub hn1]
      ring
    rw [hcast, sub_add_cancel, div_self (ne_of_gt hnq)]

/-- C7 (witness): on x = [2, 1] the ECDF is ([1, 2], [1/2, 1]): sorted
permutation, probability 1 at the last position. -/
theorem c7_ecdf_witness :
    (ecdf_np [2, 1]).1.Perm [2, 1] ∧
    (ecdf_np [2, 1]).1.Sorted (· ≤ ·) ∧
    (ecdf_np [2, 1]).2[1]? = some 1 ∧
    (ecdf_np [2, 1]).2.getLast? = some 1 := by
  have h := c7_ecdf [2, 1] (by decide)
  refine ⟨h.1, h.2.1, ?_, h.2.2.2.2.2.2⟩
  have h5 := h.2.2.2.2.1 1 (by decide)
  rw [h5]
  norm_num

/-! Robust scaling: median, MAD and the epsilon guard. -/

theorem median_replicate (n : ℕ) (c : ℚ) (hn : n ≠ 0) :
    median (List.replicate n c) = c := by
  have hsort : (List.replicate n c).mergeSort = List.replicate n c :=
    List.mergeSort_eq_self (List.pairwise_replicate.mpr (Or.inr le_rfl))
  simp only [median, hsort, List.length_replicate]
  by_cases hpar : n % 2 = 1
  · rw [if_pos hpar, List.getD_eq_getElem?_getD, List.getElem?_replicate,
      if_pos (show n / 2 < n by omega)]
    rfl
  · rw [if_neg hpar, List.getD_eq_getElem?_getD, List.getD_eq_getElem?_getD,
      List.getElem?_replicate, List.getElem?_replicate,
      if_pos (show n / 2 - 1 < n by omega), if_pos (show n / 2 < n by omega)]
    show (c + c) / 2 = c
    ring

theorem mad_replicate (n : ℕ) (c : ℚ) (hn : n ≠ 0) :
    mad (List.replicate n c) = 0 := by
  rw [mad]
  simp only [median_replicate n c hn, List.map_replicate, sub_self, abs_zero]
  exact median_replicate n 0 hn

/-- C8: robust_scale_np returns ((x−median)/denom, median, MAD) where the
denominator is MAD·scale_factor, replaced by the epsilon 1e-12 exactly when
the MAD is 0, so that in the degenerate case the denominator is nonzero and
every scaled output is the finite value (x[i]−median)·1e12 — no division by
zero and no infinity. -/
theorem c8_robust_scale (x : List ℚ) (s : ℚ) :
    (robust_scale_np x s).2.1 = median x ∧
    (robust_scale_np x s).2.2 = mad x ∧
    (robust_scale_np x s).1.length = x.length ∧
    (∀ i (hi : i < x.length),
      (robust_scale_np x s).1[i]? =
        some ((x[i] - median x) / (if mad x ≠ 0 then mad x * s else robustEps))) ∧
    (mad x = 0 →
      (if mad x ≠ 0 then mad x * s else robustEps) = robustEps ∧
      robustEps ≠ 0 ∧
      ∀ i (hi : i < x.length),
        (robust_scale_np x s).1[i]? =
          some ((x[i] - median x) * 1000000000000)) := by
  refine ⟨rfl, rfl, by simp [robust_scale_np], ?_, ?_⟩
  · intro i hi
    simp [robust_scale_np, List.getElem?_map, List.getElem?_eq_getElem hi]
  · intro h0
    have hdenom : (if mad x ≠ 0 then mad x * s else robustEps) = robustEps :=
      if_neg (fun hc => hc h0)
    refine ⟨hdenom, by norm_num [robustEps], ?_⟩
    intro i hi
    simp only [robust_scale_np, List.getElem?_map, List.getElem?_eq_getElem hi,
      Option.map_some', hdenom, Option.some_inj]
    rw [robustEps]
    field_simp

/-- C8 (witness): on the constant input [2, 2] the MAD is exactly 0: the
epsilon denominator kicks in and the scaled entries are finite products, not
infinities. -/
theorem c8_robust_scale_witness :
    (robust_scale_np [2, 2] 3).2.1 = median [2, 2] ∧
    (robust_scale_np [2, 2] 3).2.2 = mad [2, 2] ∧
    (robust_scale_np [2, 2] 3).1.length = 2 ∧
    robustEps ≠ 0 ∧
    (robust_scale_np [2, 2] 3).1[0]? = some ((2 - median [2, 2]) * 1000000000000) := by
  have hmad : mad [2, 2] = 0 := mad_replicate 2 2 (by decide)
  have h := c8_robust_scale [2, 2] 3
  exact ⟨h.1, h.2.1, h.2.2.1, (h.2.2.2.2 hmad).2.1, (h.2.2.2.2 hmad).2.2 0 (by decide)⟩

/-! The facade export list. -/

/-- C1 (amended): the facade's stable export list carries the descriptive,
NaN-aware, rolling, Welford/mask, outlier/scaling, transform, ECDF,
covariance/correlation and KDE functions (42 distinct names), but none of the
Inferential Statistics operations (t-tests, chi-square tests, Cohen's d,
Hedges' g, Mann-Whitney U) and not the trimmed mean: those engine functions
are absent from the only name list the facade exports. -/
theorem c1_facade_all_amended :
    ("mean_np" ∈ bunker_stats_all ∧ "zscore_np" ∈ bunker_stats_all ∧
     "mean_nan_np" ∈ bunker_stats_all ∧ "rolling_mean_np" ∈ bunker_stats_all ∧
     "rolling_zscore_nan_np" ∈ bunker_stats_all ∧ "welford_np" ∈ bunker_stats_all ∧
     "robust_scale_np" ∈ bunker_stats_all ∧ "quantile_bins_np" ∈ bunker_stats_all ∧
     "diff_np" ∈ bunker_stats_all ∧ "pct_change_np" ∈ bunker_stats_all ∧
     "ecdf_np" ∈ bunker_stats_all ∧ "cov_np" ∈ bunker_stats_all ∧
     "cov_nan_np" ∈ bunker_stats_all ∧ "rolling_corr_nan_np" ∈ bunker_stats_all ∧
     "kde_gaussian_np" ∈ bunker_stats_all) ∧
    ("trimmed_mean_np" ∉ bunker_stats_all ∧
     "t_test_1samp_np" ∉ bunker_stats_all ∧ "t_test_2samp_np" ∉ bunker_stats_all ∧
     "chi2_gof_np" ∉ bunker_stats_all ∧ "chi2_independence_np" ∉ bunker_stats_all ∧
     "cohens_d_2samp_np" ∉ bunker_stats_all ∧ "hedges_g_2samp_np" ∉ bunker_stats_all ∧
     "mann_whitney_u_np" ∉ bunker_stats_all) ∧
    bunker_stats_all.length = 42 ∧ bunker_stats_all.Nodup := by
  decide

/-- C1 (counterexample): the claim that every public engine function —
including the inferential statistics and the trimmed mean — appears in
__all__ is false: trimmed_mean_np and mann_whitney_u_np (and the whole
inferential family) are absent from the embedded __all__ list. -/
theorem c1_facade_all_cex :
    "trimmed_mean_np" ∉ bunker_stats_all ∧ "mann_whitney_u_np" ∉ bunker_stats_all := by
  decide

/-! The benchmark driver's error isolation. -/

theorem bench_rows_eq (cases : List BenchCase) (skip : List String)
    (run : BenchCase → CallRecord) :
    bench_rows cases skip run =
      (cases.filter (fun c => !(skip.contains c.fn_name))).map run := by
  induction cases with
  | nil => rfl
  | cons c rest ih =>
      by_cases hm : c.fn_name ∈ skip <;> simp [bench_rows, hm, List.filter_cons, ih]

/-- C10: a raising timed callable makes _safe_call return a record with status
"error", the exception's repr and empty timing fields instead of propagating;
a successful one yields status "ok" with the timing spread into the record;
and the driver's main loop produces exactly one result row, in order, for
every case not in the skip set — one failing function never aborts the run or
loses other cases' rows. -/
theorem c10_safe_call_isolation (e : String) (t : TimingResult) (cases : List BenchCase)
    (skip : List String) (run : BenchCase → CallRecord) :
    safe_call (Except.error e) =
      ⟨"error", e, none, none, none, none, none, none⟩ ∧
    safe_call (Except.ok t) =
      ⟨"ok", "", some t.median_s, some t.mean_s, some t.cv, some t.p50_s, some t.p95_s,
        some t.p99_s⟩ ∧
    bench_rows cases skip run =
      (cases.filter (fun c => !(skip.contains c.fn_name))).map run ∧
    (bench_rows cases skip run).length =
      (cases.filter (fun c => !(skip.contains c.fn_name))).length :=
  ⟨rfl, rfl, bench_rows_eq cases skip run, by rw [bench_rows_eq]; simp⟩

end BunkerStats
